import Mathlib

/-!
Verification of the change-log differ of `src/diff.py` (functions
`parse_single_changelog` and `add_change_columns_to_df`), embedded
shallowly: text is `List Char`, a missing pandas value (`None`/`NaN`)
is the constructor `Changelog.na`, the Python `set` built from a list
is determinized as the list of first occurrences (`dedupFirst`), and
the DataFrame is a list of rows with explicit state passing for the
`inplace` mode.
-/

namespace Firemon

/-- ASCII whitespace matched by Python's regex `\s` and stripped by `str.strip()`. -/
def isPySpace (c : Char) : Bool :=
  c = ' ' || c = '\t' || c = '\n' || c = '\r' || c = '\x0b' || c = '\x0c'

/-- `str(x).replace('\n', ' ').replace('\r', '')` of `diff.py` line 13:
newlines become spaces, carriage returns are deleted. -/
def replaceNewlines (t : List Char) : List Char :=
  t.filterMap (fun c => if c = '\r' then none else if c = '\n' then some ' ' else some c)

/-- One character step of `re.sub(r'\s+', ' ', ...)`: every whitespace
character is destined to become a space. -/
def toSpace (c : Char) : Char := if isPySpace c then ' ' else c

/-- Collapse adjacent spaces, the run-collapsing part of `re.sub(r'\s+', ' ', ...)`. -/
def squeeze : List Char → List Char
  | [] => []
  | [c] => [c]
  | a :: b :: rest =>
    if a = ' ' && b = ' ' then squeeze (b :: rest)
    else a :: squeeze (b :: rest)

/-- `cleaned_text` of `diff.py` line 13: replace newlines, delete carriage
returns, then collapse every whitespace run to a single space. -/
def cleanText (t : List Char) : List Char := squeeze ((replaceNewlines t).map toSpace)

/-- The literal head of the regex `Members changed from \[(.*?)\] to \[(.*?)\]`. -/
def litFrom : List Char := "Members changed from [".toList

/-- The literal delimiter between the two captures of the regex. -/
def litTo : List Char := "] to [".toList

/-- `leadsWith p t` holds when `p` is an initial segment of `t`. -/
def leadsWith : List Char → List Char → Bool
  | [], _ => true
  | _ :: _, [] => false
  | p :: ps, c :: cs => p = c && leadsWith ps cs

/-- Split `t` at the first occurrence of `nd`: `some (a, b)` with
`t = a ++ nd ++ b` and `a` shortest, `none` when `nd` does not occur. -/
def splitFirst (nd : List Char) : List Char → Option (List Char × List Char)
  | [] => if leadsWith nd [] then some ([], []) else none
  | c :: cs =>
    if leadsWith nd (c :: cs) then some ([], (c :: cs).drop nd.length)
    else
      match splitFirst nd cs with
      | some (a, b) => some (c :: a, b)
      | none => none

/-- Try to match `Members changed from \[(.*?)\] to \[(.*?)\]` at the start of
`t`: the literal head, then the shortest capture up to the next `] to [`,
then the shortest capture up to the next `]`.  This is the non-greedy match
the regex performs at one search position. -/
def matchAt (t : List Char) : Option (List Char × List Char) :=
  if leadsWith litFrom t then
    match splitFirst litTo (t.drop litFrom.length) with
    | none => none
    | some (c1, rest) =>
      match splitFirst [']'] rest with
      | none => none
      | some (c2, _) => some (c1, c2)
  else none

/-- `re.search(pattern, cleaned_text, re.DOTALL)` of `diff.py` lines 16-17:
the match at the leftmost position where the whole pattern matches. -/
def extractClause : List Char → Option (List Char × List Char)
  | [] => none
  | c :: cs =>
    match matchAt (c :: cs) with
    | some r => some r
    | none => extractClause cs

/-- `member_string.split(',')` of `diff.py` line 28. -/
def splitComma : List Char → List (List Char)
  | [] => [[]]
  | c :: cs =>
    if c = ',' then [] :: splitComma cs
    else
      match splitComma cs with
      | [] => [[c]]
      | t :: ts => (c :: t) :: ts

/-- `item.strip()` of `diff.py` line 29. -/
def pystrip (t : List Char) : List Char :=
  ((t.dropWhile isPySpace).reverse.dropWhile isPySpace).reverse

/-- `parse_members` of `diff.py` lines 26-32: split on commas, strip each
token, keep the nonempty ones, in order. -/
def parse_members (s : List Char) : List String :=
  (splitComma s).filterMap
    (fun item => if pystrip item = [] then none else some (String.mk (pystrip item)))

/-- A Python `set(l)` determinized as the list of first occurrences, the
insertion-order reading of set iteration; `seen` accumulates the elements
already emitted. -/
def dedupFirst (seen : List String) : List String → List String
  | [] => []
  | x :: xs => if x ∈ seen then dedupFirst seen xs else x :: dedupFirst (x :: seen) xs

/-- `diff.py` lines 37-44: `old_set = set(old_list)`, `new_set = set(new_list)`,
`removed_from_old = list(old_set - new_set)`, `added_to_new = list(new_set - old_set)`. -/
def diffMembers (o n : List Char) : List String × List String :=
  let old_set := dedupFirst [] (parse_members o)
  let new_set := dedupFirst [] (parse_members n)
  (old_set.filter (fun x => !(decide (x ∈ new_set))),
   new_set.filter (fun x => !(decide (x ∈ old_set))))

/-- A cell of the change-log column: either a missing value (`None`/`NaN`,
for which `pd.isna` is true) or a string. -/
inductive Changelog where
  | na
  | text (s : String)
deriving DecidableEq, Repr

/-- The clause lookup of `diff.py` lines 9-20 as one partial map: missing or
empty input and unmatched text all yield `none`. -/
def clauseOf : Changelog → Option (List Char × List Char)
  | .na => none
  | .text s => if s = "" then none else extractClause (cleanText s.toList)

/-- `parse_single_changelog` of `diff.py` lines 4-44. -/
def parse_single_changelog (c : Changelog) : List String × List String :=
  match clauseOf c with
  | none => ([], [])
  | some (o, n) => diffMembers o n

/-- A DataFrame row: the change-log cell, the three derived columns, and
`other` standing for every remaining column of the row. -/
structure Row where
  changeLog : Changelog
  changes : String
  removed : String
  added : String
  other : String
deriving DecidableEq, Repr

/-- The change summary of `diff.py` line 86:
`f"移除:{len(removed_list)}項, 新增:{len(added_list)}項"`. -/
def changeSummary (r a : Nat) : String :=
  "移除:" ++ toString r ++ "項, 新增:" ++ toString a ++ "項"

/-- One iteration of the loop of `diff.py` lines 76-99 on one row: the three
derived columns are initialized to the empty string (lines 67-69) and filled
only when the parsed diff is nonempty (lines 82-97). -/
def enrichRow (r : Row) : Row :=
  let p := parse_single_changelog r.changeLog
  if p.1 ≠ [] ∨ p.2 ≠ [] then
    { r with
        changes := changeSummary p.1.length p.2.length,
        removed := String.intercalate ", " p.1,
        added := String.intercalate ",\n" p.2 }
  else { r with changes := "", removed := "", added := "" }

/-- The full pass of the loop of `diff.py` lines 76-99 over the frame. -/
def processRows (rows : List Row) : List Row := rows.map enrichRow

/-- The condition of `diff.py` line 82: the row's parsed diff is nonempty
(`if removed_list or added_list`). -/
def rowHasChanges (r : Row) : Bool :=
  let p := parse_single_changelog r.changeLog
  !p.1.isEmpty || !p.2.isEmpty

/-- `changes_found` after the loop: the number of rows whose parsed diff is
nonempty (`diff.py` lines 74, 82-83). -/
def changesFound (rows : List Row) : Nat :=
  (rows.filter rowHasChanges).length

/-- The observable outcome of one call to `add_change_columns_to_df`:
the value it returns, the final state of the caller's frame (explicit state
passing for the `inplace` mutation), and the three reported counts
(`diff.py` lines 106-108). -/
structure BatchResult where
  returned : Option (List Row)
  caller : List Row
  processedCount : Nat
  changesFoundCount : Nat
  withoutChangesCount : Nat
deriving DecidableEq, Repr

/-- `add_change_columns_to_df` of `diff.py` lines 46-115: with `inplace=True`
the caller's frame is mutated and `None` is returned; with `inplace=False`
the work happens on a copy which is returned, the caller's frame untouched. -/
def add_change_columns_to_df (df : List Row) (inplace : Bool) : BatchResult :=
  if inplace then
    { returned := none
      caller := processRows df
      processedCount := df.length
      changesFoundCount := changesFound df
      withoutChangesCount := df.length - changesFound df }
  else
    { returned := some (processRows df)
      caller := df
      processedCount := df.length
      changesFoundCount := changesFound df
      withoutChangesCount := df.length - changesFound df }

/-- Modelled from the spec: clause matching as the spec's words read
literally, "each capture being the shortest possible match up to the next
`]`" — capture1 stops at the first `]` after the literal head, which must
then be followed immediately by ` to [`.  Compared against `matchAt`, the
regex semantics of the source. -/
def matchAtSpec (t : List Char) : Option (List Char × List Char) :=
  if leadsWith litFrom t then
    match splitFirst [']'] (t.drop litFrom.length) with
    | none => none
    | some (c1, rest) =>
      if leadsWith " to [".toList rest then
        match splitFirst [']'] (rest.drop 5) with
        | none => none
        | some (c2, _) => some (c1, c2)
      else none
  else none

/-- Modelled from the spec: the first-occurrence scan over `matchAtSpec`. -/
def extractClauseSpec : List Char → Option (List Char × List Char)
  | [] => none
  | c :: cs =>
    match matchAtSpec (c :: cs) with
    | some r => some r
    | none => extractClauseSpec cs

theorem mem_dedupFirst (a : String) (l : List String) :
    ∀ seen, a ∈ dedupFirst seen l ↔ a ∈ l ∧ a ∉ seen := by
  induction l with
  | nil => intro seen; simp [dedupFirst]
  | cons x xs ih =>
    intro seen
    by_cases hx : x ∈ seen
    · rw [dedupFirst, if_pos hx, ih seen]
      constructor
      · rintro ⟨hm, hs⟩
        exact ⟨List.mem_cons_of_mem _ hm, hs⟩
      · rintro ⟨hm, hs⟩
        rcases List.mem_cons.1 hm with rfl | hm
        · exact absurd hx hs
        · exact ⟨hm, hs⟩
    · rw [dedupFirst, if_neg hx]
      simp only [List.mem_cons, ih (x :: seen)]
      constructor
      · rintro (rfl | ⟨hm, hs⟩)
        · exact ⟨Or.inl rfl, hx⟩
        · exact ⟨Or.inr hm, fun hc => hs (Or.inr hc)⟩
      · rintro ⟨rfl | hm, hs⟩
        · exact Or.inl rfl
        · by_cases hax : a = x
          · exact Or.inl hax
          · exact Or.inr ⟨hm, fun hc => by
              rcases hc with h | h
              · exact hax h
              · exact hs h⟩

theorem nodup_dedupFirst (l : List String) : ∀ seen, (dedupFirst seen l).Nodup := by
  induction l with
  | nil => intro seen; simp [dedupFirst]
  | cons x xs ih =>
    intro seen
    by_cases hx : x ∈ seen
    · rw [dedupFirst, if_pos hx]; exact ih seen
    · rw [dedupFirst, if_neg hx]
      refine List.nodup_cons.2 ⟨fun hmem => ?_, ih (x :: seen)⟩
      exact ((mem_dedupFirst x xs (x :: seen)).1 hmem).2 (List.mem_cons_self x seen)

theorem diffMembers_removed_toFinset (o n : List Char) :
    (diffMembers o n).1.toFinset
      = (parse_members o).toFinset \ (parse_members n).toFinset := by
  ext a
  simp [diffMembers, List.mem_filter, mem_dedupFirst]

theorem diffMembers_added_toFinset (o n : List Char) :
    (diffMembers o n).2.toFinset
      = (parse_members n).toFinset \ (parse_members o).toFinset := by
  ext a
  simp [diffMembers, List.mem_filter, mem_dedupFirst]

theorem diffMembers_removed_nodup (o n : List Char) : (diffMembers o n).1.Nodup :=
  (nodup_dedupFirst _ _).filter _

theorem diffMembers_added_nodup (o n : List Char) : (diffMembers o n).2.Nodup :=
  (nodup_dedupFirst _ _).filter _

theorem parse_of_clause (c : Changelog) (o n : List Char)
    (h : clauseOf c = some (o, n)) :
    parse_single_changelog c = diffMembers o n := by
  simp [parse_single_changelog, h]

/-- C1: when the change clause is found, the diff returns
`removed = OldSet − NewSet` and `added = NewSet − OldSet`; together with
`unchanged = OldSet ∩ NewSet` the three sets are pairwise disjoint,
`removed ∪ unchanged = OldSet`, `added ∪ unchanged = NewSet`,
`|OldSet| = |removed| + |unchanged|`, `|NewSet| = |added| + |unchanged|`,
and the returned lists have exactly the cardinalities of those sets. -/
theorem diff_partition_invariant (c : Changelog) (o n : List Char)
    (h : clauseOf c = some (o, n)) :
    (parse_single_changelog c).1.toFinset
        = (parse_members o).toFinset \ (parse_members n).toFinset ∧
    (parse_single_changelog c).2.toFinset
        = (parse_members n).toFinset \ (parse_members o).toFinset ∧
    Disjoint ((parse_members o).toFinset \ (parse_members n).toFinset)
        ((parse_members n).toFinset \ (parse_members o).toFinset) ∧
    Disjoint ((parse_members o).toFinset \ (parse_members n).toFinset)
        ((parse_members o).toFinset ∩ (parse_members n).toFinset) ∧
    Disjoint ((parse_members n).toFinset \ (parse_members o).toFinset)
        ((parse_members o).toFinset ∩ (parse_members n).toFinset) ∧
    ((parse_members o).toFinset \ (parse_members n).toFinset)
        ∪ ((parse_members o).toFinset ∩ (parse_members n).toFinset)
        = (parse_members o).toFinset ∧
    ((parse_members n).toFinset \ (parse_members o).toFinset)
        ∪ ((parse_members o).toFinset ∩ (parse_members n).toFinset)
        = (parse_members n).toFinset ∧
    (parse_members o).toFinset.card
        = ((parse_members o).toFinset \ (parse_members n).toFinset).card
          + ((parse_members o).toFinset ∩ (parse_members n).toFinset).card ∧
    (parse_members n).toFinset.card
        = ((parse_members n).toFinset \ (parse_members o).toFinset).card
          + ((parse_members o).toFinset ∩ (parse_members n).toFinset).card ∧
    (parse_single_changelog c).1.length
        = ((parse_members o).toFinset \ (parse_members n).toFinset).card ∧
    (parse_single_changelog c).2.length
        = ((parse_members n).toFinset \ (parse_members o).toFinset).card := by
  rw [parse_of_clause c o n h]
  refine ⟨diffMembers_removed_toFinset o n, diffMembers_added_toFinset o n,
    disjoint_sdiff_sdiff,
    Finset.sdiff_disjoint.mono_right Finset.inter_subset_right,
    Finset.sdiff_disjoint.mono_right Finset.inter_subset_left,
    Finset.sdiff_union_inter _ _, ?_,
    (Finset.card_sdiff_add_card_inter _ _).symm, ?_, ?_, ?_⟩
  · rw [Finset.inter_comm]
    exact Finset.sdiff_union_inter _ _
  · rw [Finset.inter_comm]
    exact (Finset.card_sdiff_add_card_inter _ _).symm
  · rw [← diffMembers_removed_toFinset o n]
    exact (List.toFinset_card_of_nodup (diffMembers_removed_nodup o n)).symm
  · rw [← diffMembers_added_toFinset o n]
    exact (List.toFinset_card_of_nodup (diffMembers_added_nodup o n)).symm

/-- Witness for C1 at the record `Members changed from [A,B,C] to [A,B,D,E]`. -/
theorem diff_partition_invariant_witness :
    clauseOf (.text "Members changed from [A,B,C] to [A,B,D,E]")
        = some ("A,B,C".toList, "A,B,D,E".toList) ∧
    ((parse_single_changelog (.text "Members changed from [A,B,C] to [A,B,D,E]")).1.toFinset
        = (parse_members "A,B,C".toList).toFinset
          \ (parse_members "A,B,D,E".toList).toFinset ∧
    (parse_single_changelog (.text "Members changed from [A,B,C] to [A,B,D,E]")).2.toFinset
        = (parse_members "A,B,D,E".toList).toFinset
          \ (parse_members "A,B,C".toList).toFinset ∧
    Disjoint ((parse_members "A,B,C".toList).toFinset
          \ (parse_members "A,B,D,E".toList).toFinset)
        ((parse_members "A,B,D,E".toList).toFinset
          \ (parse_members "A,B,C".toList).toFinset) ∧
    Disjoint ((parse_members "A,B,C".toList).toFinset
          \ (parse_members "A,B,D,E".toList).toFinset)
        ((parse_members "A,B,C".toList).toFinset
          ∩ (parse_members "A,B,D,E".toList).toFinset) ∧
    Disjoint ((parse_members "A,B,D,E".toList).toFinset
          \ (parse_members "A,B,C".toList).toFinset)
        ((parse_members "A,B,C".toList).toFinset
          ∩ (parse_members "A,B,D,E".toList).toFinset) ∧
    ((parse_members "A,B,C".toList).toFinset
          \ (parse_members "A,B,D,E".toList).toFinset)
        ∪ ((parse_members "A,B,C".toList).toFinset
          ∩ (parse_members "A,B,D,E".toList).toFinset)
        = (parse_members "A,B,C".toList).toFinset ∧
    ((parse_members "A,B,D,E".toList).toFinset
          \ (parse_members "A,B,C".toList).toFinset)
        ∪ ((parse_members "A,B,C".toList).toFinset
          ∩ (parse_members "A,B,D,E".toList).toFinset)
        = (parse_members "A,B,D,E".toList).toFinset ∧
    (parse_members "A,B,C".toList).toFinset.card
        = ((parse_members "A,B,C".toList).toFinset
          \ (parse_members "A,B,D,E".toList).toFinset).card
          + ((parse_members "A,B,C".toList).toFinset
          ∩ (parse_members "A,B,D,E".toList).toFinset).card ∧
    (parse_members "A,B,D,E".toList).toFinset.card
        = ((parse_members "A,B,D,E".toList).toFinset
          \ (parse_members "A,B,C".toList).toFinset).card
          + ((parse_members "A,B,C".toList).toFinset
          ∩ (parse_members "A,B,D,E".toList).toFinset).card ∧
    (parse_single_changelog (.text "Members changed from [A,B,C] to [A,B,D,E]")).1.length
        = ((parse_members "A,B,C".toList).toFinset
          \ (parse_members "A,B,D,E".toList).toFinset).card ∧
    (parse_single_changelog (.text "Members changed from [A,B,C] to [A,B,D,E]")).2.length
        = ((parse_members "A,B,D,E".toList).toFinset
          \ (parse_members "A,B,C".toList).toFinset).card) :=
  ⟨by decide, diff_partition_invariant _ _ _ (by decide)⟩

/-- C5: member-list parsing splits on commas, trims each token, discards
tokens empty after trimming, and duplicates collapse in the resulting set:
`A,A,B` gives the two-element set `{A,B}`, the empty interior gives the
empty set, and the two empty-sided diffs come out as claimed. -/
theorem member_list_parsing :
    (∀ s : List Char,
      (dedupFirst [] (parse_members s)).toFinset = (parse_members s).toFinset) ∧
    (dedupFirst [] (parse_members "A,A,B".toList)).toFinset = {"A", "B"} ∧
    (dedupFirst [] (parse_members "A,A,B".toList)).length = 2 ∧
    parse_members "".toList = [] ∧
    parse_members " A , B ,, ".toList = ["A", "B"] ∧
    diffMembers "".toList "A,B".toList = ([], ["A", "B"]) ∧
    diffMembers "A,B".toList "".toList = (["A", "B"], []) := by
  refine ⟨fun s => ?_, by decide⟩
  ext a
  simp [mem_dedupFirst]

/-- C7: the batch operation supports both materialization modes: with
`inplace=False` the caller's sequence is left untouched and a processed copy
is returned; with `inplace=True` the caller's sequence becomes the processed
one and nothing is returned; both modes compute the same enrichment. -/
theorem batch_materialization_modes (df : List Row) :
    (add_change_columns_to_df df false).caller = df ∧
    (add_change_columns_to_df df false).returned = some (processRows df) ∧
    (add_change_columns_to_df df true).caller = processRows df ∧
    (add_change_columns_to_df df true).returned = none ∧
    (add_change_columns_to_df df false).returned
      = some ((add_change_columns_to_df df true).caller) := by
  simp [add_change_columns_to_df]

/-- C8: the single-record diff is deterministic and free of shared state:
repeated runs on the same input give the same result, member-list parsing
twice gives identical lists, and in the batch each row's result is the
single-record pipeline applied to that row alone, independent of call order
or prior records. -/
theorem single_diff_pure (c : Changelog) (s : List Char) (df : List Row)
    (i : Nat) (h : i < df.length) (h2 : i < (processRows df).length) :
    parse_single_changelog c = parse_single_changelog c ∧
    parse_members s = parse_members s ∧
    (processRows df).get ⟨i, h2⟩ = enrichRow (df.get ⟨i, h⟩) := by
  refine ⟨rfl, rfl, ?_⟩
  simp [processRows, List.get_eq_getElem, List.getElem_map]

/-- Witness for C8 on a one-row frame. -/
theorem single_diff_pure_witness :
    0 < ([⟨.na, "", "", "", ""⟩] : List Row).length ∧
    0 < (processRows [⟨.na, "", "", "", ""⟩]).length ∧
    (parse_single_changelog (.text "x") = parse_single_changelog (.text "x") ∧
     parse_members "A".toList = parse_members "A".toList ∧
     (processRows [⟨.na, "", "", "", ""⟩]).get ⟨0, by decide⟩
        = enrichRow (([⟨.na, "", "", "", ""⟩] : List Row).get ⟨0, by decide⟩)) :=
  ⟨by decide, by decide,
    single_diff_pure (.text "x") "A".toList [⟨.na, "", "", "", ""⟩] 0 (by decide) (by decide)⟩

/-- C9: a missing change-log cell (`None`/`NaN`), the empty string, and any
text without a clause all yield the pair of two empty lists, a defined
outcome and not an exception. -/
theorem missing_input_parse (s : String)
    (h : extractClause (cleanText s.toList) = none) :
    parse_single_changelog .na = ([], []) ∧
    parse_single_changelog (.text "") = ([], []) ∧
    parse_single_changelog (.text s) = ([], []) := by
  refine ⟨rfl, rfl, ?_⟩
  by_cases hs : s = ""
  · subst hs; rfl
  · simp only [parse_single_changelog, clauseOf, hs, if_false]
    rw [h]

/-- Witness for C9 at the clause-free text `No changes detected`. -/
theorem missing_input_parse_witness :
    extractClause (cleanText "No changes detected".toList) = none ∧
    (parse_single_changelog .na = ([], []) ∧
     parse_single_changelog (.text "") = ([], []) ∧
     parse_single_changelog (.text "No changes detected") = ([], [])) :=
  ⟨by decide, missing_input_parse _ (by decide)⟩

theorem parse_of_equal_sets (c : Changelog) (o n : List Char)
    (h : clauseOf c = some (o, n))
    (hset : (parse_members o).toFinset = (parse_members n).toFinset) :
    parse_single_changelog c = ([], []) := by
  rw [parse_of_clause c o n h]
  have hmem : ∀ x : String, x ∈ parse_members o ↔ x ∈ parse_members n := by
    intro x
    have := Finset.ext_iff.1 hset x
    simpa using this
  have h1 : (dedupFirst [] (parse_members o)).filter
      (fun x => !(decide (x ∈ dedupFirst [] (parse_members n)))) = [] := by
    rw [List.filter_eq_nil_iff]
    intro a ha
    have hao : a ∈ parse_members o := ((mem_dedupFirst a _ _).1 ha).1
    have : a ∈ dedupFirst [] (parse_members n) :=
      (mem_dedupFirst a _ _).2 ⟨(hmem a).1 hao, by simp⟩
    simp [this]
  have h2 : (dedupFirst [] (parse_members n)).filter
      (fun x => !(decide (x ∈ dedupFirst [] (parse_members o)))) = [] := by
    rw [List.filter_eq_nil_iff]
    intro a ha
    have han : a ∈ parse_members n := ((mem_dedupFirst a _ _).1 ha).1
    have : a ∈ dedupFirst [] (parse_members o) :=
      (mem_dedupFirst a _ _).2 ⟨(hmem a).2 han, by simp⟩
    simp [this]
  simp only [diffMembers]
  rw [h1, h2]

/-- C10: a record whose clause matches with equal old and new member sets
keeps all three derived fields empty, is tallied as a record without
changes, and its derived fields equal those of a record with no clause at
all. -/
theorem equal_sets_indistinguishable (r : Row) (o n : List Char)
    (h : clauseOf r.changeLog = some (o, n))
    (hset : (parse_members o).toFinset = (parse_members n).toFinset) :
    enrichRow r = { r with changes := "", removed := "", added := "" } ∧
    rowHasChanges r = false ∧
    ((enrichRow r).changes, (enrichRow r).removed, (enrichRow r).added)
      = ((enrichRow { r with changeLog := .text "No changes detected" }).changes,
         (enrichRow { r with changeLog := .text "No changes detected" }).removed,
         (enrichRow { r with changeLog := .text "No changes detected" }).added) := by
  have hp := parse_of_equal_sets r.changeLog o n h hset
  have hnc : parse_single_changelog (Changelog.text "No changes detected") = ([], []) := by
    decide
  refine ⟨by simp [enrichRow, hp], by simp [rowHasChanges, hp], ?_⟩
  simp [enrichRow, hp, hnc]

/-- Witness for C10 at the record `Members changed from [A,B] to [B,A]`. -/
theorem equal_sets_indistinguishable_witness :
    clauseOf (Changelog.text "Members changed from [A,B] to [B,A]")
        = some ("A,B".toList, "B,A".toList) ∧
    (parse_members "A,B".toList).toFinset = (parse_members "B,A".toList).toFinset ∧
    (enrichRow ⟨.text "Members changed from [A,B] to [B,A]", "c", "r", "a", "id"⟩
        = { (⟨.text "Members changed from [A,B] to [B,A]", "c", "r", "a", "id"⟩ : Row) with
            changes := "", removed := "", added := "" } ∧
     rowHasChanges ⟨.text "Members changed from [A,B] to [B,A]", "c", "r", "a", "id"⟩
        = false ∧
     ((enrichRow ⟨.text "Members changed from [A,B] to [B,A]", "c", "r", "a", "id"⟩).changes,
      (enrichRow ⟨.text "Members changed from [A,B] to [B,A]", "c", "r", "a", "id"⟩).removed,
      (enrichRow ⟨.text "Members changed from [A,B] to [B,A]", "c", "r", "a", "id"⟩).added)
      = ((enrichRow { (⟨.text "Members changed from [A,B] to [B,A]", "c", "r", "a", "id"⟩ : Row)
            with changeLog := .text "No changes detected" }).changes,
         (enrichRow { (⟨.text "Members changed from [A,B] to [B,A]", "c", "r", "a", "id"⟩ : Row)
            with changeLog := .text "No changes detected" }).removed,
         (enrichRow { (⟨.text "Members changed from [A,B] to [B,A]", "c", "r", "a", "id"⟩ : Row)
            with changeLog := .text "No changes detected" }).added)) :=
  ⟨by decide, by decide,
    equal_sets_indistinguishable
      ⟨.text "Members changed from [A,B] to [B,A]", "c", "r", "a", "id"⟩
      "A,B".toList "B,A".toList (by decide) (by decide)⟩

/-- C2 fails on the code: the summary line is `移除:<n>項, 新增:<m>項`, not
`removed:<n> items, added:<m> items`, and the rendered lists are not sorted
(for `[B,A] to []` the removed rendering keeps insertion order `B, A`). -/
theorem format_report_counterexample :
    (enrichRow ⟨.text "Members changed from [A,B,C] to [A,B,D,E]", "", "", "", ""⟩).changes
        = "移除:1項, 新增:2項" ∧
    (enrichRow ⟨.text "Members changed from [A,B,C] to [A,B,D,E]", "", "", "", ""⟩).changes
        ≠ "removed:1 items, added:2 items" ∧
    (enrichRow ⟨.text "Members changed from [B,A] to []", "", "", "", ""⟩).removed
        = "B, A" ∧
    (enrichRow ⟨.text "Members changed from [B,A] to []", "", "", "", ""⟩).removed
        ≠ "A, B" := by decide

/-- C2 amended: for a record with a nonempty diff, the removed rendering is
the comma-space join and the added rendering the comma-newline join of the
computed lists, in set-iteration order (first-occurrence order in this
model, no sorting), and the summary line is `移除:<n>項, 新增:<m>項`; for
`Members changed from [A,B,C] to [A,B,D,E]` this gives removed `C`, added
`D,\nE`, and summary `移除:1項, 新增:2項`. -/
theorem format_report_amended (r : Row) (h : rowHasChanges r = true) :
    (enrichRow r).changes
        = changeSummary (parse_single_changelog r.changeLog).1.length
            (parse_single_changelog r.changeLog).2.length ∧
    (enrichRow r).removed = String.intercalate ", " (parse_single_changelog r.changeLog).1 ∧
    (enrichRow r).added = String.intercalate ",\n" (parse_single_changelog r.changeLog).2 ∧
    (enrichRow ⟨.text "Members changed from [A,B,C] to [A,B,D,E]", "", "", "", ""⟩).removed
        = "C" ∧
    (enrichRow ⟨.text "Members changed from [A,B,C] to [A,B,D,E]", "", "", "", ""⟩).added
        = "D,\nE" ∧
    (enrichRow ⟨.text "Members changed from [A,B,C] to [A,B,D,E]", "", "", "", ""⟩).changes
        = "移除:1項, 新增:2項" := by
  have hcond : (parse_single_changelog r.changeLog).1 ≠ []
      ∨ (parse_single_changelog r.changeLog).2 ≠ [] := by
    have h2 := h
    simp only [rowHasChanges, Bool.or_eq_true, Bool.not_eq_true',
      List.isEmpty_eq_false] at h2
    simpa using h2
  refine ⟨?_, ?_, ?_, by decide, by decide, by decide⟩ <;>
    · simp only [enrichRow]
      rw [if_pos hcond]

/-- Witness for C2's amended claim at the record of the literal scenario. -/
theorem format_report_amended_witness :
    rowHasChanges ⟨.text "Members changed from [A,B,C] to [A,B,D,E]", "", "", "", ""⟩
        = true ∧
    ((enrichRow ⟨.text "Members changed from [A,B,C] to [A,B,D,E]", "", "", "", ""⟩).changes
        = changeSummary
            (parse_single_changelog
              (Row.changeLog ⟨.text "Members changed from [A,B,C] to [A,B,D,E]", "", "", "", ""⟩)).1.length
            (parse_single_changelog
              (Row.changeLog ⟨.text "Members changed from [A,B,C] to [A,B,D,E]", "", "", "", ""⟩)).2.length ∧
     (enrichRow ⟨.text "Members changed from [A,B,C] to [A,B,D,E]", "", "", "", ""⟩).removed
        = String.intercalate ", "
            (parse_single_changelog
              (Row.changeLog ⟨.text "Members changed from [A,B,C] to [A,B,D,E]", "", "", "", ""⟩)).1 ∧
     (enrichRow ⟨.text "Members changed from [A,B,C] to [A,B,D,E]", "", "", "", ""⟩).added
        = String.intercalate ",\n"
            (parse_single_changelog
              (Row.changeLog ⟨.text "Members changed from [A,B,C] to [A,B,D,E]", "", "", "", ""⟩)).2 ∧
     (enrichRow ⟨.text "Members changed from [A,B,C] to [A,B,D,E]", "", "", "", ""⟩).removed
        = "C" ∧
     (enrichRow ⟨.text "Members changed from [A,B,C] to [A,B,D,E]", "", "", "", ""⟩).added
        = "D,\nE" ∧
     (enrichRow ⟨.text "Members changed from [A,B,C] to [A,B,D,E]", "", "", "", ""⟩).changes
        = "移除:1項, 新增:2項") :=
  ⟨by decide, format_report_amended _ (by decide)⟩

/-- C6: a batch record with no clause keeps all three derived fields empty,
is still counted, is tallied as without changes, and the reported counts
satisfy `total = with_changes + without_changes` in both modes. -/
theorem batch_notfound_records (df : List Row) (inplace : Bool) (i : Nat)
    (h : i < df.length) (h2 : i < (processRows df).length)
    (hnf : clauseOf ((df.get ⟨i, h⟩).changeLog) = none) :
    ((processRows df).get ⟨i, h2⟩).changes = "" ∧
    ((processRows df).get ⟨i, h2⟩).removed = "" ∧
    ((processRows df).get ⟨i, h2⟩).added = "" ∧
    (processRows df).length = df.length ∧
    rowHasChanges (df.get ⟨i, h⟩) = false ∧
    (add_change_columns_to_df df inplace).processedCount = df.length ∧
    (add_change_columns_to_df df inplace).processedCount
      = (add_change_columns_to_df df inplace).changesFoundCount
        + (add_change_columns_to_df df inplace).withoutChangesCount := by
  have hparse : parse_single_changelog ((df.get ⟨i, h⟩).changeLog) = ([], []) := by
    simp only [parse_single_changelog, hnf]
  have hget : (processRows df).get ⟨i, h2⟩ = enrichRow (df.get ⟨i, h⟩) := by
    simp [processRows, List.get_eq_getElem, List.getElem_map]
  have henr : enrichRow (df.get ⟨i, h⟩)
      = { df.get ⟨i, h⟩ with changes := "", removed := "", added := "" } := by
    simp only [enrichRow, hparse]
    simp
  have hk : changesFound df ≤ df.length := List.length_filter_le _ _
  refine ⟨by rw [hget, henr], by rw [hget, henr], by rw [hget, henr],
    by simp [processRows], ?_, ?_, ?_⟩
  · simp only [rowHasChanges, hparse]
    simp
  · cases inplace <;> simp [add_change_columns_to_df]
  · cases inplace <;>
      simp only [add_change_columns_to_df, if_true, if_false, Bool.false_eq_true] <;>
      exact (Nat.add_sub_cancel' hk).symm

/-- Witness for C6 on a two-row frame whose first record has no clause. -/
theorem batch_notfound_records_witness :
    0 < ([⟨.text "No changes detected", "", "", "", "1"⟩,
          ⟨.text "Members changed from [X,Y] to [X]", "", "", "", "2"⟩] : List Row).length ∧
    0 < (processRows [⟨.text "No changes detected", "", "", "", "1"⟩,
          ⟨.text "Members changed from [X,Y] to [X]", "", "", "", "2"⟩]).length ∧
    clauseOf ((([⟨.text "No changes detected", "", "", "", "1"⟩,
          ⟨.text "Members changed from [X,Y] to [X]", "", "", "", "2"⟩] : List Row).get
            ⟨0, by decide⟩).changeLog) = none ∧
    (((processRows [⟨.text "No changes detected", "", "", "", "1"⟩,
          ⟨.text "Members changed from [X,Y] to [X]", "", "", "", "2"⟩]).get
            ⟨0, by decide⟩).changes = "" ∧
     ((processRows [⟨.text "No changes detected", "", "", "", "1"⟩,
          ⟨.text "Members changed from [X,Y] to [X]", "", "", "", "2"⟩]).get
            ⟨0, by decide⟩).removed = "" ∧
     ((processRows [⟨.text "No changes detected", "", "", "", "1"⟩,
          ⟨.text "Members changed from [X,Y] to [X]", "", "", "", "2"⟩]).get
            ⟨0, by decide⟩).added = "" ∧
     (processRows [⟨.text "No changes detected", "", "", "", "1"⟩,
          ⟨.text "Members changed from [X,Y] to [X]", "", "", "", "2"⟩]).length
        = ([⟨.text "No changes detected", "", "", "", "1"⟩,
          ⟨.text "Members changed from [X,Y] to [X]", "", "", "", "2"⟩] : List Row).length ∧
     rowHasChanges (([⟨.text "No changes detected", "", "", "", "1"⟩,
          ⟨.text "Members changed from [X,Y] to [X]", "", "", "", "2"⟩] : List Row).get
            ⟨0, by decide⟩) = false ∧
     (add_change_columns_to_df [⟨.text "No changes detected", "", "", "", "1"⟩,
          ⟨.text "Members changed from [X,Y] to [X]", "", "", "", "2"⟩] true).processedCount
        = ([⟨.text "No changes detected", "", "", "", "1"⟩,
          ⟨.text "Members changed from [X,Y] to [X]", "", "", "", "2"⟩] : List Row).length ∧
     (add_change_columns_to_df [⟨.text "No changes detected", "", "", "", "1"⟩,
          ⟨.text "Members changed from [X,Y] to [X]", "", "", "", "2"⟩] true).processedCount
        = (add_change_columns_to_df [⟨.text "No changes detected", "", "", "", "1"⟩,
          ⟨.text "Members changed from [X,Y] to [X]", "", "", "", "2"⟩] true).changesFoundCount
          + (add_change_columns_to_df [⟨.text "No changes detected", "", "", "", "1"⟩,
          ⟨.text "Members changed from [X,Y] to [X]", "", "", "", "2"⟩] true).withoutChangesCount) :=
  ⟨by decide, by decide, by decide,
    batch_notfound_records _ true 0 (by decide) (by decide) (by decide)⟩

/-- C4 fails on the code: replacing the run of spaces in `Members  changed`
with a carriage return changes the diff, because `\r` is deleted rather
than collapsed to a space, gluing the surrounding words together. -/
theorem whitespace_robustness_counterexample :
    parse_single_changelog (.text "Members  changed from [A] to [B]") = (["A"], ["B"]) ∧
    parse_single_changelog (.text "Members\rchanged from [A] to [B]") = ([], []) ∧
    parse_single_changelog (.text "Members  changed from [A] to [B]")
      ≠ parse_single_changelog (.text "Members\rchanged from [A] to [B]") := by decide

theorem squeeze_cons_cons (a x : Char) (xs : List Char) :
    squeeze (a :: x :: xs)
      = if a = ' ' && x = ' ' then squeeze (x :: xs) else a :: squeeze (x :: xs) := rfl

theorem squeeze_two_spaces (C : List Char) :
    squeeze (' ' :: ' ' :: C) = squeeze (' ' :: C) := by
  rw [squeeze_cons_cons]; simp

theorem squeeze_mid_space (A C : List Char) :
    squeeze (A ++ ' ' :: ' ' :: C) = squeeze (A ++ ' ' :: C) := by
  induction A with
  | nil => simpa using squeeze_two_spaces C
  | cons a A ih =>
    cases A with
    | nil =>
      show squeeze (a :: ' ' :: ' ' :: C) = squeeze (a :: ' ' :: C)
      rw [squeeze_cons_cons a ' ' (' ' :: C), squeeze_two_spaces,
        squeeze_cons_cons a ' ' C]
    | cons b B =>
      simp only [List.cons_append] at ih ⊢
      rw [squeeze_cons_cons, squeeze_cons_cons]
      by_cases hab : (a = ' ' && b = ' ') = true
      · rw [if_pos hab, if_pos hab]; exact ih
      · rw [if_neg hab, if_neg hab, ih]

theorem squeeze_flood (u : List Char) (hu : ∀ c ∈ u, c = ' ') (hne : u ≠ []) :
    ∀ A B : List Char, squeeze (A ++ u ++ B) = squeeze (A ++ ' ' :: B) := by
  induction u with
  | nil => exact absurd rfl hne
  | cons c u ih =>
    intro A B
    have hc : c = ' ' := hu c (List.mem_cons_self _ _)
    subst hc
    cases u with
    | nil => simp
    | cons d u2 =>
      have hd : d = ' ' := hu d (by simp)
      subst hd
      have step : squeeze (A ++ (' ' :: ' ' :: u2) ++ B)
          = squeeze (A ++ (' ' :: u2) ++ B) := by
        have := squeeze_mid_space A (u2 ++ B)
        simpa using this
      rw [step]
      exact ih (fun x hx => hu x (List.mem_cons_of_mem _ hx)) (by simp) A B

theorem replaceNewlines_append (a b : List Char) :
    replaceNewlines (a ++ b) = replaceNewlines a ++ replaceNewlines b := by
  simp [replaceNewlines, List.filterMap_append]

theorem cleanText_append_ws (pre suf w : List Char)
    (hw : ∀ c ∈ w, isPySpace c = true) (hnr : ∃ c ∈ w, c ≠ '\r') :
    cleanText (pre ++ w ++ suf)
      = squeeze ((replaceNewlines pre).map toSpace
          ++ ' ' :: (replaceNewlines suf).map toSpace) := by
  have himg : ∀ x ∈ (replaceNewlines w).map toSpace, x = ' ' := by
    intro x hx
    rcases List.mem_map.1 hx with ⟨y, hy, rfl⟩
    rcases List.mem_filterMap.1 hy with ⟨c, hc, hfc⟩
    by_cases hr : c = '\r'
    · simp [hr] at hfc
    · by_cases hn : c = '\n'
      · simp [hr, hn] at hfc
        simp [← hfc, toSpace, isPySpace]
      · simp [hr, hn] at hfc
        simp [← hfc, toSpace, hw c hc]
  have hne : (replaceNewlines w).map toSpace ≠ [] := by
    rcases hnr with ⟨c, hc, hcr⟩
    have hz : (if c = '\n' then ' ' else c) ∈ replaceNewlines w := by
      apply List.mem_filterMap.2
      refine ⟨c, hc, ?_⟩
      by_cases hn : c = '\n' <;> simp [hn, hcr]
    exact List.ne_nil_of_mem (List.mem_map_of_mem toSpace hz)
  show squeeze ((replaceNewlines (pre ++ w ++ suf)).map toSpace) = _
  rw [replaceNewlines_append, replaceNewlines_append, List.map_append, List.map_append]
  exact squeeze_flood _ himg hne _ _

theorem mk_ne_empty {l : List Char} (h : l ≠ []) : String.mk l ≠ "" := by
  intro he
  exact h (congrArg String.data he)

theorem parse_text_congr (s1 s2 : String) (h1 : s1 ≠ "") (h2 : s2 ≠ "")
    (h : cleanText s1.toList = cleanText s2.toList) :
    parse_single_changelog (.text s1) = parse_single_changelog (.text s2) := by
  simp only [parse_single_changelog, clauseOf]
  rw [if_neg h1, if_neg h2, h]

/-- C4 amended: replacing a run of whitespace with any other whitespace run
containing at least one non-carriage-return character leaves the extracted
clause and the diff unchanged (all such runs collapse to one space), and a
carriage return inserted anywhere is simply deleted and never changes the
result; a run consisting of carriage returns only is instead deleted
outright, which can glue the surrounding tokens (the counterexample). -/
theorem whitespace_robustness_amended (pre suf w1 w2 a b : List Char)
    (hw1 : ∀ c ∈ w1, isPySpace c = true) (hw2 : ∀ c ∈ w2, isPySpace c = true)
    (h1 : ∃ c ∈ w1, c ≠ '\r') (h2 : ∃ c ∈ w2, c ≠ '\r') :
    parse_single_changelog (.text (String.mk (pre ++ w1 ++ suf)))
      = parse_single_changelog (.text (String.mk (pre ++ w2 ++ suf))) ∧
    parse_single_changelog (.text (String.mk (a ++ '\r' :: b)))
      = parse_single_changelog (.text (String.mk (a ++ b))) := by
  constructor
  · have hne1 : w1 ≠ [] := by
      rcases h1 with ⟨c, hc, _⟩; exact List.ne_nil_of_mem hc
    have hne2 : w2 ≠ [] := by
      rcases h2 with ⟨c, hc, _⟩; exact List.ne_nil_of_mem hc
    apply parse_text_congr _ _
      (mk_ne_empty (by simp [hne1])) (mk_ne_empty (by simp [hne2]))
    show cleanText (pre ++ w1 ++ suf) = cleanText (pre ++ w2 ++ suf)
    rw [cleanText_append_ws pre suf w1 hw1 h1, cleanText_append_ws pre suf w2 hw2 h2]
  · by_cases hab : a ++ b = []
    · rcases List.append_eq_nil.1 hab with ⟨rfl, rfl⟩
      decide
    · apply parse_text_congr _ _ (mk_ne_empty (by simp)) (mk_ne_empty hab)
      show cleanText (a ++ '\r' :: b) = cleanText (a ++ b)
      unfold cleanText
      rw [show ('\r' :: b : List Char) = ['\r'] ++ b from rfl,
        replaceNewlines_append, replaceNewlines_append, replaceNewlines_append]
      simp [replaceNewlines]

/-- Witness for C4's amended claim: the space in `Members changed` replaced
by a newline-tab-space run, and a carriage return inserted inside a word. -/
theorem whitespace_robustness_amended_witness :
    (∀ c ∈ ([' '] : List Char), isPySpace c = true) ∧
    (∀ c ∈ (['\n', '\t', ' '] : List Char), isPySpace c = true) ∧
    (∃ c ∈ ([' '] : List Char), c ≠ '\r') ∧
    (∃ c ∈ (['\n', '\t', ' '] : List Char), c ≠ '\r') ∧
    (parse_single_changelog
        (.text (String.mk ("Members".toList ++ [' '] ++ "changed from [A] to [B]".toList)))
      = parse_single_changelog
        (.text (String.mk ("Members".toList ++ ['\n', '\t', ' ']
            ++ "changed from [A] to [B]".toList))) ∧
     parse_single_changelog
        (.text (String.mk ("Mem".toList ++ '\r' :: "bers changed from [A] to [B]".toList)))
      = parse_single_changelog
        (.text (String.mk ("Mem".toList ++ "bers changed from [A] to [B]".toList)))) :=
  ⟨by decide, by decide, by decide, by decide,
    whitespace_robustness_amended "Members".toList "changed from [A] to [B]".toList
      [' '] ['\n', '\t', ' '] "Mem".toList "bers changed from [A] to [B]".toList
      (by decide) (by decide) (by decide) (by decide)⟩

theorem leadsWith_iff (p : List Char) : ∀ t, leadsWith p t = true ↔ ∃ u, t = p ++ u := by
  induction p with
  | nil => intro t; simp [leadsWith]
  | cons x p ih =>
    intro t
    cases t with
    | nil => simp [leadsWith]
    | cons c cs =>
      simp only [leadsWith, Bool.and_eq_true, decide_eq_true_eq, ih cs]
      constructor
      · rintro ⟨rfl, u, rfl⟩
        exact ⟨u, rfl⟩
      · rintro ⟨u, hu⟩
        rw [List.cons_append] at hu
        injection hu with h1 h2
        exact ⟨h1.symm, u, h2⟩

theorem leadsWith_drop (p t : List Char) (h : leadsWith p t = true) :
    t = p ++ t.drop p.length := by
  rcases (leadsWith_iff p t).1 h with ⟨u, rfl⟩
  rw [List.drop_left]

theorem leadsWith_nil_false (nd : List Char) (hnd : nd ≠ []) :
    leadsWith nd [] = false := by
  cases nd with
  | nil => exact absurd rfl hnd
  | cons x xs => rfl

theorem splitFirst_sound (nd : List Char) (hnd : nd ≠ []) :
    ∀ (h a b : List Char), splitFirst nd h = some (a, b) →
      h = a ++ nd ++ b ∧ ∀ a2 b2, h = a2 ++ nd ++ b2 → a.length ≤ a2.length := by
  intro h
  induction h with
  | nil =>
    intro a b hs
    rw [splitFirst, leadsWith_nil_false nd hnd] at hs
    simp at hs
  | cons c cs ih =>
    intro a b hs
    by_cases hL : leadsWith nd (c :: cs) = true
    · rw [splitFirst, if_pos hL] at hs
      simp only [Option.some.injEq, Prod.mk.injEq] at hs
      obtain ⟨h1, h2⟩ := hs
      subst h1
      subst h2
      refine ⟨by simpa using leadsWith_drop nd (c :: cs) hL, fun a2 b2 _ => Nat.zero_le _⟩
    · rw [splitFirst, if_neg hL] at hs
      cases hsf : splitFirst nd cs with
      | none => rw [hsf] at hs; simp at hs
      | some pr =>
        obtain ⟨a0, b0⟩ := pr
        rw [hsf] at hs
        simp only [Option.some.injEq, Prod.mk.injEq] at hs
        obtain ⟨h1, h2⟩ := hs
        subst h1
        subst h2
        obtain ⟨hdec, hmin⟩ := ih a0 b0 hsf
        constructor
        · rw [List.cons_append, List.cons_append, ← hdec]
        · intro a2 b2 h2
          cases a2 with
          | nil =>
            exact absurd ((leadsWith_iff nd (c :: cs)).2 ⟨b2, by simpa using h2⟩) hL
          | cons c2 cs2 =>
            simp only [List.cons_append] at h2
            injection h2 with h21 h22
            simpa using Nat.succ_le_succ (hmin cs2 b2 h22)

theorem splitFirst_covers (nd : List Char) (hnd : nd ≠ []) :
    ∀ h, splitFirst nd h = none → ∀ a b, h ≠ a ++ nd ++ b := by
  intro h
  induction h with
  | nil =>
    intro _ a b heq
    have hlen := congrArg List.length heq
    have hpos : 0 < nd.length := List.length_pos.2 hnd
    simp only [List.length_nil, List.length_append] at hlen
    omega
  | cons c cs ih =>
    intro hs a b heq
    by_cases hL : leadsWith nd (c :: cs) = true
    · rw [splitFirst, if_pos hL] at hs; simp at hs
    · rw [splitFirst, if_neg hL] at hs
      cases hsf : splitFirst nd cs with
      | some pr => obtain ⟨x, y⟩ := pr; rw [hsf] at hs; simp at hs
      | none =>
        cases a with
        | nil => exact hL ((leadsWith_iff nd (c :: cs)).2 ⟨b, by simpa using heq⟩)
        | cons c2 cs2 =>
          simp only [List.cons_append] at heq
          injection heq with h1 h2
          exact ih hsf cs2 b h2

theorem matchAt_some (t c1 c2 : List Char) (h : matchAt t = some (c1, c2)) :
    ∃ r, t = litFrom ++ (c1 ++ litTo ++ c2 ++ ']' :: r) ∧
      (∀ a2 b2, c1 ++ litTo ++ c2 ++ ']' :: r = a2 ++ litTo ++ b2 →
        c1.length ≤ a2.length) ∧
      ']' ∉ c2 := by
  rw [matchAt] at h
  by_cases hL : leadsWith litFrom t = true
  swap
  · rw [if_neg hL] at h; exact absurd h (by simp)
  rw [if_pos hL] at h
  cases h1 : splitFirst litTo (t.drop litFrom.length) with
  | none => rw [h1] at h; simp at h
  | some p =>
    obtain ⟨d1, rest⟩ := p
    rw [h1] at h
    dsimp only at h
    cases h2 : splitFirst [']'] rest with
    | none => rw [h2] at h; simp at h
    | some q =>
      obtain ⟨d2, r⟩ := q
      rw [h2] at h
      dsimp only at h
      simp only [Option.some.injEq, Prod.mk.injEq] at h
      obtain ⟨h3, h4⟩ := h
      subst h3
      subst h4
      obtain ⟨e1, m1⟩ := splitFirst_sound litTo (by decide) _ _ _ h1
      obtain ⟨e2, m2⟩ := splitFirst_sound [']'] (by decide) _ _ _ h2
      have hdropEq : t.drop litFrom.length = d1 ++ litTo ++ d2 ++ ']' :: r := by
        rw [e1, e2]; simp
      refine ⟨r, ?_, ?_, ?_⟩
      · rw [leadsWith_drop _ _ hL, hdropEq]
      · intro a2 b2 hsplit
        exact m1 a2 b2 (hdropEq.trans hsplit)
      · intro hmem
        rcases List.append_of_mem hmem with ⟨x, y, rfl⟩
        have hx : rest = x ++ [']'] ++ (y ++ [']'] ++ r) := by rw [e2]; simp
        have hle := m2 x (y ++ [']'] ++ r) hx
        simp [List.length_append] at hle

theorem matchAt_covers (t : List Char) (h : matchAt t = none) :
    ∀ a b r, t ≠ litFrom ++ a ++ litTo ++ b ++ ']' :: r := by
  intro a b r heq
  subst heq
  rw [matchAt] at h
  have hL : leadsWith litFrom (litFrom ++ a ++ litTo ++ b ++ ']' :: r) = true :=
    (leadsWith_iff _ _).2 ⟨a ++ litTo ++ b ++ ']' :: r, by simp⟩
  rw [if_pos hL] at h
  have hdrop : (litFrom ++ a ++ litTo ++ b ++ ']' :: r).drop litFrom.length
      = a ++ litTo ++ b ++ ']' :: r := by
    rw [show litFrom ++ a ++ litTo ++ b ++ ']' :: r
        = litFrom ++ (a ++ litTo ++ b ++ ']' :: r) from by simp, List.drop_left]
  rw [hdrop] at h
  cases h1 : splitFirst litTo (a ++ litTo ++ b ++ ']' :: r) with
  | none =>
    exact splitFirst_covers litTo (by decide) _ h1 a (b ++ ']' :: r) (by simp)
  | some p =>
    obtain ⟨c1, rest⟩ := p
    rw [h1] at h
    dsimp only at h
    obtain ⟨e1, m1⟩ := splitFirst_sound litTo (by decide) _ _ _ h1
    have hc1 : c1.length ≤ a.length := m1 a (b ++ ']' :: r) (by simp)
    have hrest : rest = (a ++ litTo ++ b ++ ']' :: r).drop (c1.length + litTo.length) := by
      rw [e1, show c1 ++ litTo ++ rest = (c1 ++ litTo) ++ rest from by simp,
        show c1.length + litTo.length = (c1 ++ litTo).length from
          (List.length_append _ _).symm, List.drop_left]
    have htail : (']' :: r : List Char)
        = (a ++ litTo ++ b ++ ']' :: r).drop ((a ++ litTo ++ b).length) := by
      rw [show a ++ litTo ++ b ++ ']' :: r = (a ++ litTo ++ b) ++ ']' :: r from by simp,
        List.drop_left]
    have hmem : ']' ∈ rest := by
      rw [hrest]
      have hk : c1.length + litTo.length ≤ (a ++ litTo ++ b).length := by
        simp only [List.length_append]
        omega
      have hdd : (a ++ litTo ++ b ++ ']' :: r).drop ((a ++ litTo ++ b).length)
          = ((a ++ litTo ++ b ++ ']' :: r).drop (c1.length + litTo.length)).drop
              ((a ++ litTo ++ b).length - (c1.length + litTo.length)) := by
        rw [List.drop_drop]
        congr 1
        omega
      have hin : ']' ∈ (a ++ litTo ++ b ++ ']' :: r).drop ((a ++ litTo ++ b).length) := by
        rw [← htail]; exact List.mem_cons_self _ _
      rw [hdd] at hin
      exact List.drop_subset _ _ hin
    rcases List.append_of_mem hmem with ⟨x, y, hxy⟩
    cases h2 : splitFirst [']'] rest with
    | none =>
      exact splitFirst_covers [']'] (by decide) rest h2 x y (by rw [hxy]; simp)
    | some q =>
      obtain ⟨c2, r2⟩ := q
      rw [h2] at h
      simp at h

theorem extractClause_some (t : List Char) :
    ∀ c1 c2, extractClause t = some (c1, c2) →
      ∃ p r, t = p ++ litFrom ++ c1 ++ litTo ++ c2 ++ ']' :: r ∧
        (∀ k, k < p.length → matchAt (t.drop k) = none) ∧
        (∀ a2 b2, c1 ++ litTo ++ c2 ++ ']' :: r = a2 ++ litTo ++ b2 →
          c1.length ≤ a2.length) ∧
        ']' ∉ c2 := by
  induction t with
  | nil => intro c1 c2 h; exact absurd h (by simp [extractClause])
  | cons c cs ih =>
    intro c1 c2 h
    rw [extractClause] at h
    cases hm : matchAt (c :: cs) with
    | some pr =>
      obtain ⟨d1, d2⟩ := pr
      rw [hm] at h
      dsimp only at h
      simp only [Option.some.injEq, Prod.mk.injEq] at h
      obtain ⟨h3, h4⟩ := h
      subst h3
      subst h4
      obtain ⟨r, he, hmin, hnot⟩ := matchAt_some _ _ _ hm
      exact ⟨[], r, by simpa using he, fun k hk => absurd hk (by simp), hmin, hnot⟩
    | none =>
      rw [hm] at h
      dsimp only at h
      obtain ⟨p, r, he, hfirst, hmin, hnot⟩ := ih c1 c2 h
      refine ⟨c :: p, r, by rw [List.cons_append, he]; simp, ?_, hmin, hnot⟩
      intro k hk
      cases k with
      | zero => simpa using hm
      | succ k2 =>
        rw [show (c :: cs).drop (k2 + 1) = cs.drop k2 from rfl]
        exact hfirst k2 (by simpa using hk)

theorem extractClause_covers (t : List Char) :
    extractClause t = none → ∀ p a b r, t ≠ p ++ litFrom ++ a ++ litTo ++ b ++ ']' :: r := by
  induction t with
  | nil =>
    intro _ p a b r heq
    have hlen := congrArg List.length heq
    have hpos : 0 < litFrom.length := by decide
    simp only [List.length_nil, List.length_append] at hlen
    omega
  | cons c cs ih =>
    intro h p a b r heq
    rw [extractClause] at h
    cases hm : matchAt (c :: cs) with
    | some pr => obtain ⟨x, y⟩ := pr; rw [hm] at h; simp at h
    | none =>
      rw [hm] at h
      dsimp only at h
      cases p with
      | nil => exact matchAt_covers _ hm a b r (by simpa using heq)
      | cons c2 p2 =>
        simp only [List.cons_append] at heq
        injection heq with h1 h2
        exact ih h p2 a b r h2

/-- C3 fails on the code as worded: on
`Members changed from [A] B] to [C]` the regex matches with capture1
`A] B`, which runs past the first `]` (the shortest match up to the next
`]` would be `A`, under which the literal pattern would not match at all);
the spec-worded extractor returns no match where the code returns one. -/
theorem clause_extraction_counterexample :
    extractClause "Members changed from [A] B] to [C]".toList
        = some ("A] B".toList, "C".toList) ∧
    splitFirst [']'] ("Members changed from [A] B] to [C]".toList.drop litFrom.length)
        = some ("A".toList, " B] to [C]".toList) ∧
    "A] B".toList ≠ "A".toList ∧
    extractClauseSpec "Members changed from [A] B] to [C]".toList = none := by decide

/-- C3 amended: clause extraction matches the literal pattern at its first
occurrence, with capture1 the shortest match up to the next `] to [`
delimiter of a completable match (it may span `]` characters) and capture2
the shortest match up to the next `]`; when no occurrence of the full
pattern exists the extractor returns `none`, a defined no-match outcome on
which the parse yields the empty pair, never an exception. -/
theorem clause_extraction_amended (t : List Char) :
    (∀ c1 c2, extractClause t = some (c1, c2) →
      ∃ p r, t = p ++ litFrom ++ c1 ++ litTo ++ c2 ++ ']' :: r ∧
        (∀ k, k < p.length → matchAt (t.drop k) = none) ∧
        (∀ a2 b2, c1 ++ litTo ++ c2 ++ ']' :: r = a2 ++ litTo ++ b2 →
          c1.length ≤ a2.length) ∧
        ']' ∉ c2) ∧
    (extractClause t = none ↔
      ∀ p a b r, t ≠ p ++ litFrom ++ a ++ litTo ++ b ++ ']' :: r) ∧
    (∀ s : String, cleanText s.toList = t → extractClause t = none →
      parse_single_changelog (.text s) = ([], [])) := by
  refine ⟨extractClause_some t, ⟨extractClause_covers t, ?_⟩, ?_⟩
  · intro hno
    cases he : extractClause t with
    | none => rfl
    | some pr =>
      obtain ⟨c1, c2⟩ := pr
      obtain ⟨p, r, heq, -, -, -⟩ := extractClause_some t c1 c2 he
      exact absurd heq (hno p c1 c2 r)
  · intro s hs hn
    by_cases hse : s = ""
    · subst hse; rfl
    · simp only [parse_single_changelog, clauseOf]
      rw [if_neg hse, hs, hn]

end Firemon
